import Mathlib

/-!
Shallow embedding of `src/stan/math/matrix_error_handling.hpp` (the matrix
validation layer of the Stan math library) and verification of its
specification.

Modelling choices:
* A dense matrix is a structure holding a row count, a column count and a
  total entry function `ℕ → ℕ → ℚ`; the scalar template parameter `T_y` is
  instantiated at exact rationals for the order/arithmetic predicates
  (`check_symmetric`, `check_pos_definite`, the composites).  The NaN /
  finiteness predicates (`check_not_nan`, `check_finite`) only inspect each
  entry through `isnan` / `isfinite`, so for those the scalar type is a
  four-way discrimination `FP` (NaN, plus and minus infinity, finite value).
* Each C++ check returns `bool` and, on failure, builds a message and calls
  the error-reporting collaborator `raise_domain_error`, then conditionally
  writes the returned sentinel through the `result` pointer.  The embedding
  returns a pair: the first component is `none` on success (the C++ `true`
  return) and `some e` on failure, where `e` is a structured rendering of the
  data embedded in the failure message (indices and values); the second
  component is the state of the output slot after the call.  A null `result`
  pointer is modelled by `none`, a non-null pointer to contents `v` by
  `some v`.
* The C++ `Policy` template parameter selects the behaviour of
  `raise_domain_error`; the only part of that behaviour visible to this layer
  is the value it hands back (which is what gets written through `result`), so
  `Policy` is modelled as a structure carrying that returned value.
-/

namespace Stan

/-- Modelled from the spec: the process-wide tolerance constant
`CONSTRAINT_TOLERANCE` is defined in `stan/math/error_handling.hpp`, which is
outside the visible fragment; the spec describes it as a fixed small positive
scalar, and its value in the library is `1E-8`. -/
def CONSTRAINT_TOLERANCE : ℚ := 1 / 100000000

/-- Embedding of `fabs` on the exact-rational scalar instantiation. -/
def fabs (x : ℚ) : ℚ := if x < 0 then -x else x

/-- Modelled from the spec: the error-reporting policy.  The policy mechanism
is an external collaborator; the only part of it observable in this layer is
the result value `raise_domain_error` produces, which is recorded here. -/
structure Policy (α : Type) where
  errValue : α

/-- Modelled from the spec: the error-reporting collaborator
`raise_domain_error`.  It receives the offending value (the `%1%`
substitution) and returns a policy-determined result value. -/
def raise_domain_error {α β : Type} (p : Policy α) (_offending : β) : α :=
  p.errValue

/-- Embedding of the guarded write `if (result != 0) *result = tmp;`:
a null pointer (`none`) is left untouched, a non-null slot receives `tmp`. -/
def writeResult {α : Type} (result : Option α) (tmp : α) : Option α :=
  match result with
  | some _ => some tmp
  | none => none

/-- Generic left-to-right index scan: `findFrom p i rem` returns the first
index `j` with `i ≤ j < i + rem` such that `p j`, scanning upward from `i`,
and `none` if there is none.  Every `for`-loop searching for a first violation
in the source is an instance of this scheme. -/
def findFrom (p : ℕ → Bool) : ℕ → ℕ → Option ℕ
  | _, 0 => none
  | i, rem + 1 => if p i then some i else findFrom p (i + 1) rem

/-- Dense dynamic-size matrix over the exact-rational scalar instantiation:
row count, column count, and (unchecked, total) entry access, mirroring
`Eigen::Matrix<T,Dynamic,Dynamic>`. -/
structure Mat where
  rows : ℕ
  cols : ℕ
  entry : ℕ → ℕ → ℚ

/-- Content of the `check_size_match` failure message: the two compared
sizes (`i` is also the `%1%` value). -/
structure SizeErr where
  i : ℕ
  j : ℕ
deriving DecidableEq

/-- Content of the `check_symmetric` failure message: the violating index
pair `(m, n)` and the two mirrored entries (`vmn` is the `%1%` value). -/
structure SymErr where
  m : ℕ
  n : ℕ
  vmn : ℚ
  vnm : ℚ
deriving DecidableEq

/-- Content of the `check_pos_definite` failure message: the index pair
named in the message text and the value passed as `%1%`. -/
structure PdErr where
  r : ℕ
  c : ℕ
  value : ℚ
deriving DecidableEq

/-- Content of the `check_positive` failure message (the non-positive size). -/
structure PosErr where
  value : ℕ
deriving DecidableEq

/-- Content of the unit-diagonal failure message inside `check_corr_matrix`:
the diagonal index and the offending diagonal value. -/
structure DiagErr where
  k : ℕ
  value : ℚ
deriving DecidableEq

/-- Failure of one of the ordered sub-checks of `check_cov_matrix`; the
constructor records which sub-check's message is reported. -/
inductive CovErr where
  | size (e : SizeErr)
  | pos (e : PosErr)
  | sym (e : SymErr)
  | pd (e : PdErr)
deriving DecidableEq

/-- Failure of one of the five ordered sub-checks of `check_corr_matrix`; the
constructor records which sub-check's message is reported. -/
inductive CorrErr where
  | size (e : SizeErr)
  | pos (e : PosErr)
  | sym (e : SymErr)
  | diag (e : DiagErr)
  | pd (e : PdErr)
deriving DecidableEq

/-- Embedding of `check_size_match` (lines 17-37): succeeds iff the two sizes
are equal; on failure reports both sizes and conditionally writes the
policy sentinel through the result slot. -/
def check_size_match (i j : ℕ) (result : Option ℚ) (p : Policy ℚ) :
    Option SizeErr × Option ℚ :=
  if i ≠ j then
    let tmp := raise_domain_error p i
    (some ⟨i, j⟩, writeResult result tmp)
  else
    (none, result)

/-- Loop-body condition of `check_symmetric` (line 61):
`fabs(y(m,n) - y(n,m)) > CONSTRAINT_TOLERANCE`. -/
def symViol (y : Mat) (m n : ℕ) : Bool :=
  decide (CONSTRAINT_TOLERANCE < fabs (y.entry m n - y.entry n m))

/-- Inner loop of `check_symmetric` for a fixed row `m`: scan
`n = m+1, ..., k-1` (with `k = y.rows`) for the first violating column. -/
def symRowViol (y : Mat) (m : ℕ) : Option ℕ :=
  findFrom (fun n => symViol y m n) (m + 1) (y.rows - (m + 1))

/-- Nested loops of `check_symmetric` (lines 59-75): the first violating pair
`(m, n)` with `m` ascending outer and `n` ascending inner from `m+1`. -/
def symFirstViol (y : Mat) : Option (ℕ × ℕ) :=
  (findFrom (fun m => (symRowViol y m).isSome) 0 y.rows).bind
    (fun m => (symRowViol y m).map (fun n => (m, n)))

/-- Embedding of `check_symmetric` (lines 48-77): `k = y.rows`; if `k == 1`
return true immediately; otherwise scan the strict upper triangle of the
leading `k × k` block for the first pair violating the tolerance, report it
and conditionally write the sentinel. -/
def check_symmetric (y : Mat) (result : Option ℚ) (p : Policy ℚ) :
    Option SymErr × Option ℚ :=
  let k := y.rows
  if k = 1 then
    (none, result)
  else
    match symFirstViol y with
    | some (m, n) =>
        let tmp := raise_domain_error p (y.entry m n)
        (some ⟨m, n, y.entry m n, y.entry n m⟩, writeResult result tmp)
    | none => (none, result)

/-- Schur complement of the leading 1×1 block: the matrix
`A' = A[1:,1:] - A[1:,0] A[0,1:] / A[0,0]` (as an entry function), the
recursion step of the LDLᵀ factorization. -/
def schurComplement (A : ℕ → ℕ → ℚ) : ℕ → ℕ → ℚ :=
  fun i j => A (i + 1) (j + 1) - A (i + 1) 0 * A (j + 1) 0 / A 0 0

/-- Modelled from the spec: the numeric factorization collaborator
(`Eigen::LDLT`, `cholesky.vectorD()`), which is outside the visible fragment.
Per the spec it provides a symmetric indefinite (LDL-style) factorization
producing the sequence of diagonal factor values of an `n × n` matrix; here
that diagonal is computed by the textbook Schur-complement recursion
`D 0 = A 0 0` followed by the diagonal of the Schur complement. -/
def vectorD (A : ℕ → ℕ → ℚ) : ℕ → List ℚ
  | 0 => []
  | n + 1 => A 0 0 :: vectorD (schurComplement A) n

/-- Embedding of `check_pos_definite` (lines 79-119): an order-1 matrix whose
single entry is at most the tolerance fails immediately; otherwise the matrix
fails iff some entry of the factorization diagonal is at most the tolerance.
Both failure messages literally name index `(0,0)` and carry `y(0,0)` as the
`%1%` value. -/
def check_pos_definite (y : Mat) (result : Option ℚ) (p : Policy ℚ) :
    Option PdErr × Option ℚ :=
  if y.rows = 1 ∧ y.entry 0 0 ≤ CONSTRAINT_TOLERANCE then
    let tmp := raise_domain_error p (y.entry 0 0)
    (some ⟨0, 0, y.entry 0 0⟩, writeResult result tmp)
  else if (vectorD y.entry y.rows).any (fun d => decide (d ≤ CONSTRAINT_TOLERANCE)) then
    let tmp := raise_domain_error p (y.entry 0 0)
    (some ⟨0, 0, y.entry 0 0⟩, writeResult result tmp)
  else
    (none, result)

/-- Modelled from the spec: the external `check_positive` collaborator
(defined in `stan/math/error_handling.hpp`, outside the fragment), which
validates that a scalar — here a row count — is strictly positive; on failure
it reports through the same error-signalling contract as the other checks. -/
def check_positive (n : ℕ) (result : Option ℚ) (p : Policy ℚ) :
    Option PosErr × Option ℚ :=
  if 0 < n then
    (none, result)
  else
    let tmp := raise_domain_error p n
    (some ⟨n⟩, writeResult result tmp)

/-- Sequencing of the composite checks, mirroring the source pattern
`if (!check_xxx(..., result, Policy())) return false;`: if the sub-check `r`
failed, its failure (tagged by `f` into the composite's failure type) and its
slot state are returned at once; otherwise the continuation `k` runs with the
slot state the sub-check left behind. -/
def andThen {ε ε' α : Type} (r : Option ε × Option α) (f : ε → ε')
    (k : Option α → Option ε' × Option α) : Option ε' × Option α :=
  match r with
  | (some e, s) => (some (f e), s)
  | (none, s) => k s

/-- Embedding of the named-subject overload of `check_cov_matrix`
(lines 130-145): size match on rows vs cols, then positive row count, then
symmetry, then positive definiteness, each short-circuiting on failure with
the same result slot threaded through. -/
def check_cov_matrix (y : Mat) (result : Option ℚ) (p : Policy ℚ) :
    Option CovErr × Option ℚ :=
  andThen (check_size_match y.rows y.cols result p) CovErr.size (fun r =>
    andThen (check_positive y.rows r p) CovErr.pos (fun r =>
      andThen (check_symmetric y r p) CovErr.sym (fun r =>
        andThen (check_pos_definite y r p) CovErr.pd (fun r =>
          (none, r)))))

/-- Embedding of the overload of `check_cov_matrix` without an explicit
subject name (lines 269-281): size match, positive row count, symmetry —
and no positive-definiteness step. -/
def check_cov_matrix_nameless (Sigma : Mat) (result : Option ℚ) (p : Policy ℚ) :
    Option CovErr × Option ℚ :=
  andThen (check_size_match Sigma.rows Sigma.cols result p) CovErr.size (fun r =>
    andThen (check_positive Sigma.rows r p) CovErr.pos (fun r =>
      andThen (check_symmetric Sigma r p) CovErr.sym (fun r =>
        (none, r))))

/-- Loop of `check_corr_matrix` over the diagonal (lines 171-183): the first
index `k < y.rows` with `fabs(y(k,k) - 1.0) > CONSTRAINT_TOLERANCE`. -/
def corrDiagViol (y : Mat) : Option ℕ :=
  findFrom (fun k => decide (CONSTRAINT_TOLERANCE < fabs (y.entry k k - 1))) 0 y.rows

/-- Unit-diagonal step of `check_corr_matrix` (the inline `for` loop over the
diagonal, lines 171-183), in the same shape as the other sub-checks: on the
first diagonal entry out of tolerance, report its index and value and
conditionally write the sentinel. -/
def corrDiagCheck (y : Mat) (result : Option ℚ) (p : Policy ℚ) :
    Option DiagErr × Option ℚ :=
  match corrDiagViol y with
  | some k =>
      let tmp := raise_domain_error p (y.entry k k)
      (some ⟨k, y.entry k k⟩, writeResult result tmp)
  | none => (none, result)

/-- Embedding of `check_corr_matrix` (lines 159-187): size match, positive
row count, symmetry, unit diagonal within tolerance, positive definiteness,
in this order with short-circuit. -/
def check_corr_matrix (y : Mat) (result : Option ℚ) (p : Policy ℚ) :
    Option CorrErr × Option ℚ :=
  andThen (check_size_match y.rows y.cols result p) CorrErr.size (fun r =>
    andThen (check_positive y.rows r p) CorrErr.pos (fun r =>
      andThen (check_symmetric y r p) CorrErr.sym (fun r =>
        andThen (corrDiagCheck y r p) CorrErr.diag (fun r =>
          andThen (check_pos_definite y r p) CorrErr.pd (fun r =>
            (none, r))))))

/-- Double-precision scalar as seen by the NaN / finiteness predicates: the
only observations `check_not_nan` and `check_finite` make of an entry are
`boost::math::isnan` and `boost::math::isfinite`, so the scalar is modelled
as NaN, one of the two infinities, or a finite value. -/
inductive FP where
  | nan
  | posInf
  | negInf
  | val (q : ℚ)
deriving DecidableEq

/-- Embedding of `boost::math::isnan`. -/
def FP.isnan : FP → Bool
  | .nan => true
  | _ => false

/-- Embedding of `boost::math::isfinite`: false for NaN and both infinities. -/
def FP.isfinite : FP → Bool
  | .val _ => true
  | _ => false

/-- Column vector (`Eigen::Matrix<T,Dynamic,1>`) over the `FP` scalar. -/
structure VecF where
  rows : ℕ
  entry : ℕ → FP

/-- Dense dynamic-size matrix over the `FP` scalar. -/
structure MatF where
  rows : ℕ
  cols : ℕ
  entry : ℕ → ℕ → FP

/-- Content of the vector-overload `check_not_nan` / `check_finite` failure
message: the linear index and the entry value (the `%1%` value). -/
structure IdxErr where
  i : ℕ
  value : FP
deriving DecidableEq

/-- Content of the matrix-overload `check_not_nan` failure message: the row
and column indices and the entry value (the `%1%` value). -/
structure Idx2Err where
  i : ℕ
  j : ℕ
  value : FP
deriving DecidableEq

/-- Embedding of the vector overload of `check_not_nan` (lines 188-209):
scan `i = 0, ..., rows-1` for the first NaN entry; report its index and
value. -/
def check_not_nan_vec (y : VecF) (result : Option FP) (p : Policy FP) :
    Option IdxErr × Option FP :=
  match findFrom (fun i => (y.entry i).isnan) 0 y.rows with
  | some i =>
      let tmp := raise_domain_error p (y.entry i)
      (some ⟨i, y.entry i⟩, writeResult result tmp)
  | none => (none, result)

/-- Inner loop of the matrix overload of `check_not_nan` for a fixed row `i`:
the first column `j < y.cols` whose entry is NaN. -/
def nanRowViol (y : MatF) (i : ℕ) : Option ℕ :=
  findFrom (fun j => (y.entry i j).isnan) 0 y.cols

/-- Nested loops of the matrix overload of `check_not_nan` (lines 218-231):
the first NaN position in row-major order (rows outer, columns inner). -/
def nanFirstViol (y : MatF) : Option (ℕ × ℕ) :=
  (findFrom (fun i => (nanRowViol y i).isSome) 0 y.rows).bind
    (fun i => (nanRowViol y i).map (fun j => (i, j)))

/-- Embedding of the matrix overload of `check_not_nan` (lines 212-233). -/
def check_not_nan_mat (y : MatF) (result : Option FP) (p : Policy FP) :
    Option Idx2Err × Option FP :=
  match nanFirstViol y with
  | some (i, j) =>
      let tmp := raise_domain_error p (y.entry i j)
      (some ⟨i, j, y.entry i j⟩, writeResult result tmp)
  | none => (none, result)

/-- Embedding of `check_finite` (vector overload, lines 236-257): scan for
the first entry that is not finite; report its index and value. -/
def check_finite (y : VecF) (result : Option FP) (p : Policy FP) :
    Option IdxErr × Option FP :=
  match findFrom (fun i => !(y.entry i).isfinite) 0 y.rows with
  | some i =>
      let tmp := raise_domain_error p (y.entry i)
      (some ⟨i, y.entry i⟩, writeResult result tmp)
  | none => (none, result)

/-- Element accesses performed by the inner loop of `check_symmetric` in
row `m`, scanning `n = start, start+1, ...` for `rem` steps: evaluating the
condition on line 61 reads `y(m,n)` and `y(n,m)`; the scan stops at the
first violating pair (whose message re-reads the same two positions). -/
def symAccessRow (y : Mat) (m : ℕ) : ℕ → ℕ → List (ℕ × ℕ)
  | _, 0 => []
  | n, rem + 1 =>
    (m, n) :: (n, m) ::
      (if symViol y m n then [] else symAccessRow y m (n + 1) rem)

/-- Element accesses performed by the outer loop of `check_symmetric` from
row `m` on, for `rem` more rows: row `m`'s accesses, then — only when row `m`
finds no violation — the accesses of the later rows. -/
def symAccessAll (y : Mat) : ℕ → ℕ → List (ℕ × ℕ)
  | _, 0 => []
  | m, rem + 1 =>
    symAccessRow y m (m + 1) (y.rows - (m + 1)) ++
      (match symRowViol y m with
       | some _ => []
       | none => symAccessAll y (m + 1) rem)

/-- All element accesses `check_symmetric` performs on `y`, in order: none
when `y.rows == 1` (early return), otherwise the accesses of the nested scan
with both loop bounds equal to `y.rows`. -/
def symAccesses (y : Mat) : List (ℕ × ℕ) :=
  if y.rows = 1 then [] else symAccessAll y 0 y.rows

/-! ### Semantic predicates named by the spec -/

/-- Symmetry within tolerance over the leading `rows × rows` block: the
property `check_symmetric` tests. -/
def symmetricWithin (y : Mat) : Prop :=
  ∀ m n, m < n → n < y.rows → fabs (y.entry m n - y.entry n m) ≤ CONSTRAINT_TOLERANCE

/-- Positive definiteness as this layer defines it: every diagonal entry of
the LDL-style factorization exceeds the tolerance.  (For an order-1 matrix
the factorization diagonal is the single entry itself.) -/
def posDefiniteWithin (y : Mat) : Prop :=
  ∀ d ∈ vectorD y.entry y.rows, CONSTRAINT_TOLERANCE < d

/-- Every diagonal entry is within tolerance of `1.0`: the property the
diagonal loop of `check_corr_matrix` tests. -/
def unitDiagWithin (y : Mat) : Prop :=
  ∀ k, k < y.rows → fabs (y.entry k k - 1) ≤ CONSTRAINT_TOLERANCE

/-- Frame contract of a check call: the output slot is overwritten with the
policy sentinel exactly when the check failed and the slot was non-null, and
is left untouched otherwise. -/
def SlotContract {ε α : Type} (slot : Option α) (v : α) (res : Option ε × Option α) : Prop :=
  res.2 = if res.1.isSome then writeResult slot v else slot

/-! ### Concrete fixtures -/

/-- Identity matrix of order `n`. -/
def idMat (n : ℕ) : Mat :=
  ⟨n, n, fun i j => if i = j then 1 else 0⟩

/-- The 1×1 matrix holding `5.0`. -/
def mat1x1_5 : Mat :=
  ⟨1, 1, fun _ _ => 5⟩

/-- The 1×1 matrix holding `0.0`. -/
def mat1x1_0 : Mat :=
  ⟨1, 1, fun _ _ => 0⟩

/-- The symmetric 2×2 matrix `[[1,2],[2,1]]`. -/
def mat2x2_sym : Mat :=
  ⟨2, 2, fun i j => if i = j then 1 else 2⟩

/-- The asymmetric 2×2 matrix `[[1,2],[3,1]]`. -/
def mat2x2_asym : Mat :=
  ⟨2, 2, fun i j => if i = 0 ∧ j = 1 then 2 else if i = 1 ∧ j = 0 then 3 else 1⟩

/-- A 2×1 (taller than wide) matrix. -/
def mat2x1 : Mat :=
  ⟨2, 1, fun _ _ => 0⟩

/-- A concrete reporting policy over the rational scalar. -/
def pol0 : Policy ℚ :=
  ⟨0⟩

/-- A concrete reporting policy over the `FP` scalar. -/
def polF : Policy FP :=
  ⟨FP.nan⟩

/-- A 3-vector whose entry 1 is NaN. -/
def vec_nan : VecF :=
  ⟨3, fun i => if i = 1 then FP.nan else FP.val 0⟩

/-- A 2×2 `FP` matrix whose (1,0) entry is NaN. -/
def matF_nan : MatF :=
  ⟨2, 2, fun i j => if i = 1 ∧ j = 0 then FP.nan else FP.val 1⟩

/-- A 3-vector whose entry 2 is positive infinity. -/
def vec_inf : VecF :=
  ⟨3, fun i => if i = 2 then FP.posInf else FP.val 1⟩

/-! ### Characterization of the generic scan -/

theorem findFrom_eq_none {p : ℕ → Bool} :
    ∀ {rem i}, findFrom p i rem = none ↔ ∀ j, i ≤ j → j < i + rem → p j = false := by
  intro rem
  induction rem with
  | zero =>
    intro i
    simp only [findFrom, true_iff]
    exact fun j h1 h2 => absurd h2 (by omega)
  | succ rem ih =>
    intro i
    simp only [findFrom]
    by_cases hp : p i
    · simp only [hp, if_true]
      constructor
      · intro h; exact absurd h (by simp)
      · intro h
        have := h i (Nat.le_refl i) (by omega)
        rw [hp] at this
        exact absurd this (by simp)
    · rw [if_neg hp, ih]
      constructor
      · intro h j h1 h2
        rcases Nat.eq_or_lt_of_le h1 with h3 | h3
        · subst h3; exact Bool.eq_false_iff.mpr hp
        · exact h j h3 (by omega)
      · intro h j h1 h2
        exact h j (by omega) (by omega)

theorem findFrom_eq_some {p : ℕ → Bool} :
    ∀ {rem i j}, findFrom p i rem = some j ↔
      i ≤ j ∧ j < i + rem ∧ p j = true ∧ ∀ l, i ≤ l → l < j → p l = false := by
  intro rem
  induction rem with
  | zero =>
    intro i j
    simp only [findFrom]
    constructor
    · intro h; exact absurd h (by simp)
    · rintro ⟨h1, h2, -⟩; exact absurd h2 (by omega)
  | succ rem ih =>
    intro i j
    simp only [findFrom]
    by_cases hp : p i
    · simp only [hp, if_true, Option.some.injEq]
      constructor
      · rintro rfl
        exact ⟨Nat.le_refl i, by omega, hp, fun l h1 h2 => absurd h2 (by omega)⟩
      · rintro ⟨h1, h2, h3, h4⟩
        rcases Nat.eq_or_lt_of_le h1 with h5 | h5
        · exact h5
        · have := h4 i (Nat.le_refl i) h5
          rw [hp] at this
          exact absurd this (by simp)
    · rw [if_neg hp, ih]
      constructor
      · rintro ⟨h1, h2, h3, h4⟩
        refine ⟨by omega, by omega, h3, fun l h5 h6 => ?_⟩
        rcases Nat.eq_or_lt_of_le h5 with h7 | h7
        · subst h7; exact Bool.eq_false_iff.mpr hp
        · exact h4 l h7 h6
      · rintro ⟨h1, h2, h3, h4⟩
        have hij : i ≠ j := by
          rintro rfl
          rw [h3] at hp
          exact hp rfl
        exact ⟨by omega, by omega, h3, fun l h5 h6 => h4 l (by omega) h6⟩

/-! ### Characterization of the `check_symmetric` scan -/

theorem symRowViol_eq_none {y : Mat} {m : ℕ} :
    symRowViol y m = none ↔ ∀ n, m < n → n < y.rows → symViol y m n = false := by
  rw [symRowViol, findFrom_eq_none]
  constructor
  · intro h n h1 h2
    exact h n (by omega) (by omega)
  · intro h n h1 h2
    exact h n (by omega) (by omega)

theorem symRowViol_eq_some {y : Mat} {m n : ℕ} :
    symRowViol y m = some n ↔
      m < n ∧ n < y.rows ∧ symViol y m n = true ∧
        ∀ l, m < l → l < n → symViol y m l = false := by
  rw [symRowViol, findFrom_eq_some]
  constructor
  · rintro ⟨h1, h2, h3, h4⟩
    exact ⟨by omega, by omega, h3, fun l h5 h6 => h4 l (by omega) h6⟩
  · rintro ⟨h1, h2, h3, h4⟩
    exact ⟨by omega, by omega, h3, fun l h5 h6 => h4 l (by omega) h6⟩

theorem isSome_false_eq_none {α : Type} {x : Option α} (h : x.isSome = false) : x = none := by
  cases x
  · rfl
  · exact absurd h (by simp)

theorem symFirstViol_eq_none {y : Mat} :
    symFirstViol y = none ↔ ∀ m n, m < n → n < y.rows → symViol y m n = false := by
  rw [symFirstViol]
  rcases ho : findFrom (fun m => (symRowViol y m).isSome) 0 y.rows with _ | m0
  · constructor
    · intro _ m n h1 h2
      have h3 := (findFrom_eq_none.mp ho) m (Nat.zero_le m) (by omega)
      exact symRowViol_eq_none.mp (isSome_false_eq_none h3) n h1 h2
    · intro _; rfl
  · obtain ⟨-, -, hsome, -⟩ := findFrom_eq_some.mp ho
    rcases hr : symRowViol y m0 with _ | n0
    · rw [hr] at hsome; exact absurd hsome (by simp)
    · show ((some m0).bind fun m => Option.map (fun n => (m, n)) (symRowViol y m)) = none ↔ _
      rw [Option.some_bind, hr]
      constructor
      · intro h; exact absurd h (by simp)
      · intro h
        exfalso
        obtain ⟨h1, h2, h3, -⟩ := symRowViol_eq_some.mp hr
        rw [h m0 n0 h1 h2] at h3
        exact absurd h3 (by simp)

theorem symFirstViol_eq_some {y : Mat} {m n : ℕ} :
    symFirstViol y = some (m, n) ↔
      m < n ∧ n < y.rows ∧ symViol y m n = true ∧
        (∀ l, m < l → l < n → symViol y m l = false) ∧
        (∀ a b, a < m → a < b → b < y.rows → symViol y a b = false) := by
  constructor
  · intro h
    rw [symFirstViol] at h
    rcases ho : findFrom (fun m => (symRowViol y m).isSome) 0 y.rows with _ | m0
    · rw [ho] at h; exact absurd h (by simp)
    · rw [ho, Option.some_bind] at h
      obtain ⟨-, -, -, hbefore⟩ := findFrom_eq_some.mp ho
      rcases hr : symRowViol y m0 with _ | n0
      · rw [hr] at h; exact absurd h (by simp)
      · rw [hr] at h
        simp only [Option.map_some', Option.some.injEq, Prod.mk.injEq] at h
        obtain ⟨rfl, rfl⟩ := h
        obtain ⟨h1, h2, h3, h4⟩ := symRowViol_eq_some.mp hr
        refine ⟨h1, h2, h3, h4, fun a b ha hab hb => ?_⟩
        exact symRowViol_eq_none.mp
          (isSome_false_eq_none (hbefore a (Nat.zero_le a) ha)) b hab hb
  · rintro ⟨h1, h2, h3, h4, h5⟩
    have hrow : symRowViol y m = some n := symRowViol_eq_some.mpr ⟨h1, h2, h3, h4⟩
    have houter : findFrom (fun m => (symRowViol y m).isSome) 0 y.rows = some m := by
      rw [findFrom_eq_some]
      refine ⟨Nat.zero_le m, by omega, by rw [hrow]; rfl, fun a _ ha => ?_⟩
      have h6 : symRowViol y a = none :=
        symRowViol_eq_none.mpr (fun b hab hb => h5 a b ha hab hb)
      rw [h6]; rfl
    rw [symFirstViol, houter, Option.some_bind, hrow]
    rfl

theorem symViol_eq_false_iff {y : Mat} {m n : ℕ} :
    symViol y m n = false ↔ fabs (y.entry m n - y.entry n m) ≤ CONSTRAINT_TOLERANCE := by
  simp [symViol, not_lt]

/-! ### Success characterizations of the primitive checks -/

theorem check_size_match_fst_none {i j : ℕ} {slot : Option ℚ} {p : Policy ℚ} :
    (check_size_match i j slot p).1 = none ↔ i = j := by
  by_cases h : i = j <;> simp [check_size_match, h]

theorem check_positive_fst_none {n : ℕ} {slot : Option ℚ} {p : Policy ℚ} :
    (check_positive n slot p).1 = none ↔ 0 < n := by
  by_cases h : 0 < n <;> simp [check_positive, h]

theorem check_symmetric_fst_none {y : Mat} {slot : Option ℚ} {p : Policy ℚ} :
    (check_symmetric y slot p).1 = none ↔ symmetricWithin y := by
  rw [check_symmetric]
  by_cases hk : y.rows = 1
  · simp only [hk, if_true]
    constructor
    · intro _ m n h1 h2
      rw [hk] at h2
      omega
    · intro _; trivial
  · simp only [hk, if_false]
    rcases hv : symFirstViol y with _ | ⟨m, n⟩
    · constructor
      · intro _ m n h1 h2
        exact symViol_eq_false_iff.mp (symFirstViol_eq_none.mp hv m n h1 h2)
      · intro _; trivial
    · obtain ⟨h1, h2, h3, -, -⟩ := symFirstViol_eq_some.mp hv
      constructor
      · intro h; exact absurd h (by simp)
      · intro h
        exfalso
        rw [symViol_eq_false_iff.mpr (h m n h1 h2)] at h3
        exact absurd h3 (by simp)

theorem check_symmetric_fst_some {y : Mat} {slot : Option ℚ} {p : Policy ℚ} {e : SymErr} :
    (check_symmetric y slot p).1 = some e →
      y.rows ≠ 1 ∧ symFirstViol y = some (e.m, e.n) ∧
        e.vmn = y.entry e.m e.n ∧ e.vnm = y.entry e.n e.m := by
  rw [check_symmetric]
  by_cases hk : y.rows = 1
  · simp [hk]
  · simp only [hk, if_false]
    rcases hv : symFirstViol y with _ | ⟨m, n⟩
    · intro h; exact absurd h (by simp)
    · intro h
      simp only [Option.some.injEq] at h
      subst h
      exact ⟨hk, rfl, rfl, rfl⟩

theorem check_pos_definite_fst_none {y : Mat} {slot : Option ℚ} {p : Policy ℚ} :
    (check_pos_definite y slot p).1 = none ↔ posDefiniteWithin y := by
  rw [check_pos_definite]
  by_cases hc : y.rows = 1 ∧ y.entry 0 0 ≤ CONSTRAINT_TOLERANCE
  · rw [if_pos hc]
    constructor
    · intro h; exact absurd h (by simp)
    · intro h
      exfalso
      have hmem : y.entry 0 0 ∈ vectorD y.entry y.rows := by
        rw [hc.1]
        exact List.mem_cons_self _ _
      exact absurd hc.2 (not_le.mpr (h (y.entry 0 0) hmem))
  · rw [if_neg hc]
    by_cases hany : (vectorD y.entry y.rows).any (fun d => decide (d ≤ CONSTRAINT_TOLERANCE)) = true
    · rw [if_pos hany]
      constructor
      · intro h; exact absurd h (by simp)
      · intro h
        exfalso
        obtain ⟨d, hd, hdle⟩ := List.any_eq_true.mp hany
        exact absurd (of_decide_eq_true hdle) (not_le.mpr (h d hd))
    · rw [if_neg hany]
      constructor
      · intro _ d hd
        have h5 := List.any_eq_false.mp (Bool.eq_false_iff.mpr hany) d hd
        exact not_le.mp (of_decide_eq_false (Bool.eq_false_iff.mpr h5))
      · intro _; trivial

theorem check_pos_definite_fst_some {y : Mat} {slot : Option ℚ} {p : Policy ℚ} {e : PdErr} :
    (check_pos_definite y slot p).1 = some e → e = ⟨0, 0, y.entry 0 0⟩ := by
  rw [check_pos_definite]
  by_cases hc : y.rows = 1 ∧ y.entry 0 0 ≤ CONSTRAINT_TOLERANCE
  · rw [if_pos hc]
    intro h
    simp only [Option.some.injEq] at h
    exact h.symm
  · rw [if_neg hc]
    by_cases hany : (vectorD y.entry y.rows).any (fun d => decide (d ≤ CONSTRAINT_TOLERANCE)) = true
    · rw [if_pos hany]
      intro h
      simp only [Option.some.injEq] at h
      exact h.symm
    · rw [if_neg hany]
      intro h
      exact absurd h (by simp)

theorem corrDiagViol_eq_none {y : Mat} :
    corrDiagViol y = none ↔ unitDiagWithin y := by
  rw [corrDiagViol, findFrom_eq_none]
  constructor
  · intro h k hk
    have := h k (Nat.zero_le k) (by omega)
    rw [decide_eq_false_iff_not, not_lt] at this
    exact this
  · intro h k _ hk
    rw [decide_eq_false_iff_not, not_lt]
    exact h k (by omega)

theorem corrDiagViol_eq_some {y : Mat} {k : ℕ} :
    corrDiagViol y = some k ↔
      k < y.rows ∧ CONSTRAINT_TOLERANCE < fabs (y.entry k k - 1) ∧
        ∀ l, l < k → fabs (y.entry l l - 1) ≤ CONSTRAINT_TOLERANCE := by
  rw [corrDiagViol, findFrom_eq_some]
  constructor
  · rintro ⟨-, h2, h3, h4⟩
    refine ⟨by omega, of_decide_eq_true h3, fun l hl => ?_⟩
    have := h4 l (Nat.zero_le l) hl
    rw [decide_eq_false_iff_not, not_lt] at this
    exact this
  · rintro ⟨h1, h2, h3⟩
    refine ⟨Nat.zero_le k, by omega, decide_eq_true h2, fun l _ hl => ?_⟩
    rw [decide_eq_false_iff_not, not_lt]
    exact h3 l hl

/-! ### The output-slot contract -/

theorem slot_check_size_match (i j : ℕ) (slot : Option ℚ) (p : Policy ℚ) :
    SlotContract slot p.errValue (check_size_match i j slot p) := by
  unfold SlotContract check_size_match
  by_cases h : i ≠ j
  · rw [if_pos h]; rfl
  · rw [if_neg h]; rfl

theorem slot_check_positive (n : ℕ) (slot : Option ℚ) (p : Policy ℚ) :
    SlotContract slot p.errValue (check_positive n slot p) := by
  unfold SlotContract check_positive
  by_cases h : 0 < n
  · rw [if_pos h]; rfl
  · rw [if_neg h]; rfl

theorem slot_check_symmetric (y : Mat) (slot : Option ℚ) (p : Policy ℚ) :
    SlotContract slot p.errValue (check_symmetric y slot p) := by
  unfold SlotContract
  rw [check_symmetric]
  by_cases hk : y.rows = 1
  · simp only [hk, if_true]; rfl
  · simp only [hk, if_false]
    rcases hv : symFirstViol y with _ | ⟨m, n⟩
    · rfl
    · rfl

theorem slot_check_pos_definite (y : Mat) (slot : Option ℚ) (p : Policy ℚ) :
    SlotContract slot p.errValue (check_pos_definite y slot p) := by
  unfold SlotContract
  rw [check_pos_definite]
  by_cases hc : y.rows = 1 ∧ y.entry 0 0 ≤ CONSTRAINT_TOLERANCE
  · rw [if_pos hc]; rfl
  · rw [if_neg hc]
    by_cases hany : (vectorD y.entry y.rows).any (fun d => decide (d ≤ CONSTRAINT_TOLERANCE)) = true
    · rw [if_pos hany]; rfl
    · rw [if_neg hany]; rfl

theorem slot_check_not_nan_vec (y : VecF) (slot : Option FP) (p : Policy FP) :
    SlotContract slot p.errValue (check_not_nan_vec y slot p) := by
  unfold SlotContract
  rw [check_not_nan_vec]
  rcases h : findFrom (fun i => (y.entry i).isnan) 0 y.rows with _ | i
  · rfl
  · rfl

theorem slot_check_not_nan_mat (y : MatF) (slot : Option FP) (p : Policy FP) :
    SlotContract slot p.errValue (check_not_nan_mat y slot p) := by
  unfold SlotContract
  rw [check_not_nan_mat]
  rcases h : nanFirstViol y with _ | ⟨i, j⟩
  · rfl
  · rfl

theorem slot_check_finite (y : VecF) (slot : Option FP) (p : Policy FP) :
    SlotContract slot p.errValue (check_finite y slot p) := by
  unfold SlotContract
  rw [check_finite]
  rcases h : findFrom (fun i => !(y.entry i).isfinite) 0 y.rows with _ | i
  · rfl
  · rfl

theorem slot_corrDiagCheck (y : Mat) (slot : Option ℚ) (p : Policy ℚ) :
    SlotContract slot p.errValue (corrDiagCheck y slot p) := by
  unfold SlotContract
  rw [corrDiagCheck]
  rcases hd : corrDiagViol y with _ | k
  · rfl
  · rfl

/-! ### Behaviour of the sequencing combinator -/

theorem andThen_of_fst_some {ε ε' α : Type} {r : Option ε × Option α} {f : ε → ε'}
    {k : Option α → Option ε' × Option α} {e : ε} (h : r.1 = some e) :
    andThen r f k = (some (f e), r.2) := by
  rcases r with ⟨_ | e', s⟩
  · exact absurd h (by simp)
  · simp only [Option.some.injEq] at h
    subst h
    rfl

theorem andThen_of_fst_none {ε ε' α : Type} {r : Option ε × Option α} {f : ε → ε'}
    {k : Option α → Option ε' × Option α} (h : r.1 = none) :
    andThen r f k = k r.2 := by
  rcases r with ⟨_ | e', s⟩
  · rfl
  · exact absurd h (by simp)

theorem andThen_fst {ε ε' α : Type} (r : Option ε × Option α) (f : ε → ε')
    (k : Option α → Option ε' × Option α) :
    (andThen r f k).1 = (r.1.map f).orElse (fun _ => (k r.2).1) := by
  rcases r with ⟨_ | e', s⟩
  · rfl
  · rfl

theorem slot_andThen {ε ε' α : Type} {slot : Option α} {v : α}
    {r : Option ε × Option α} {f : ε → ε'} {k : Option α → Option ε' × Option α}
    (hr : SlotContract slot v r) (hk : SlotContract slot v (k slot)) :
    SlotContract slot v (andThen r f k) := by
  unfold SlotContract at hr ⊢
  rcases r with ⟨_ | e, s⟩
  · simp only [Option.isSome_none] at hr
    rw [if_neg (by simp)] at hr
    subst hr
    exact hk
  · simp only [Option.isSome_some, if_true] at hr
    show s = if (some (f e)).isSome = true then writeResult slot v else slot
    simp only [Option.isSome_some, if_true]
    exact hr

theorem slot_check_cov_matrix (y : Mat) (slot : Option ℚ) (p : Policy ℚ) :
    SlotContract slot p.errValue (check_cov_matrix y slot p) := by
  rw [check_cov_matrix]
  exact slot_andThen (slot_check_size_match y.rows y.cols slot p)
    (slot_andThen (slot_check_positive y.rows slot p)
      (slot_andThen (slot_check_symmetric y slot p)
        (slot_andThen (slot_check_pos_definite y slot p) rfl)))

theorem slot_check_cov_matrix_nameless (Sigma : Mat) (slot : Option ℚ) (p : Policy ℚ) :
    SlotContract slot p.errValue (check_cov_matrix_nameless Sigma slot p) := by
  rw [check_cov_matrix_nameless]
  exact slot_andThen (slot_check_size_match Sigma.rows Sigma.cols slot p)
    (slot_andThen (slot_check_positive Sigma.rows slot p)
      (slot_andThen (slot_check_symmetric Sigma slot p) rfl))

theorem slot_check_corr_matrix (y : Mat) (slot : Option ℚ) (p : Policy ℚ) :
    SlotContract slot p.errValue (check_corr_matrix y slot p) := by
  rw [check_corr_matrix]
  exact slot_andThen (slot_check_size_match y.rows y.cols slot p)
    (slot_andThen (slot_check_positive y.rows slot p)
      (slot_andThen (slot_check_symmetric y slot p)
        (slot_andThen (slot_corrDiagCheck y slot p)
          (slot_andThen (slot_check_pos_definite y slot p) rfl))))

theorem andThen_fst_slot {ε ε' α : Type} {slot : Option α} {v : α}
    {r : Option ε × Option α} (f : ε → ε') (k : Option α → Option ε' × Option α)
    (hr : SlotContract slot v r) :
    (andThen r f k).1 = (r.1.map f).orElse (fun _ => (k slot).1) := by
  rcases ho : r.1 with _ | e
  · rw [andThen_of_fst_none ho]
    have h2 : r.2 = slot := by
      unfold SlotContract at hr
      rw [ho] at hr
      rw [hr, if_neg (by simp)]
    rw [h2]
    rfl
  · rw [andThen_of_fst_some ho]
    rfl

theorem orElse_eq_none_iff {α : Type} (a : Option α) (b : Unit → Option α) :
    a.orElse b = none ↔ a = none ∧ b () = none := by
  cases a
  · simp [Option.orElse]
  · simp [Option.orElse]

/-- First component of `corrDiagCheck`: success characterization. -/
theorem corrDiagCheck_fst_none {y : Mat} {slot : Option ℚ} {p : Policy ℚ} :
    (corrDiagCheck y slot p).1 = none ↔ unitDiagWithin y := by
  rw [corrDiagCheck]
  rcases hd : corrDiagViol y with _ | k
  · simp only [true_iff]
    exact corrDiagViol_eq_none.mp hd
  · constructor
    · intro h; exact absurd h (by simp)
    · intro h
      exfalso
      obtain ⟨h1, h2, -⟩ := corrDiagViol_eq_some.mp hd
      exact absurd (h k h1) (not_le.mpr h2)

/-! ### First-component decompositions of the composites -/

theorem check_cov_matrix_fst (y : Mat) (slot : Option ℚ) (p : Policy ℚ) :
    (check_cov_matrix y slot p).1 =
      ((check_size_match y.rows y.cols slot p).1.map CovErr.size).orElse (fun _ =>
        ((check_positive y.rows slot p).1.map CovErr.pos).orElse (fun _ =>
          ((check_symmetric y slot p).1.map CovErr.sym).orElse (fun _ =>
            (check_pos_definite y slot p).1.map CovErr.pd))) := by
  rw [check_cov_matrix,
    andThen_fst_slot _ _ (slot_check_size_match y.rows y.cols slot p)]
  congr 1
  funext _
  rw [andThen_fst_slot _ _ (slot_check_positive y.rows slot p)]
  congr 1
  funext _
  rw [andThen_fst_slot _ _ (slot_check_symmetric y slot p)]
  congr 1
  funext _
  rw [andThen_fst_slot _ _ (slot_check_pos_definite y slot p)]
  rcases (check_pos_definite y slot p).1 with _ | e
  · rfl
  · rfl

theorem check_cov_matrix_nameless_fst (Sigma : Mat) (slot : Option ℚ) (p : Policy ℚ) :
    (check_cov_matrix_nameless Sigma slot p).1 =
      ((check_size_match Sigma.rows Sigma.cols slot p).1.map CovErr.size).orElse (fun _ =>
        ((check_positive Sigma.rows slot p).1.map CovErr.pos).orElse (fun _ =>
          (check_symmetric Sigma slot p).1.map CovErr.sym)) := by
  rw [check_cov_matrix_nameless,
    andThen_fst_slot _ _ (slot_check_size_match Sigma.rows Sigma.cols slot p)]
  congr 1
  funext _
  rw [andThen_fst_slot _ _ (slot_check_positive Sigma.rows slot p)]
  congr 1
  funext _
  rw [andThen_fst_slot _ _ (slot_check_symmetric Sigma slot p)]
  rcases (check_symmetric Sigma slot p).1 with _ | e
  · rfl
  · rfl

theorem check_corr_matrix_fst (y : Mat) (slot : Option ℚ) (p : Policy ℚ) :
    (check_corr_matrix y slot p).1 =
      ((check_size_match y.rows y.cols slot p).1.map CorrErr.size).orElse (fun _ =>
        ((check_positive y.rows slot p).1.map CorrErr.pos).orElse (fun _ =>
          ((check_symmetric y slot p).1.map CorrErr.sym).orElse (fun _ =>
            ((corrDiagCheck y slot p).1.map CorrErr.diag).orElse (fun _ =>
              (check_pos_definite y slot p).1.map CorrErr.pd)))) := by
  rw [check_corr_matrix,
    andThen_fst_slot _ _ (slot_check_size_match y.rows y.cols slot p)]
  congr 1
  funext _
  rw [andThen_fst_slot _ _ (slot_check_positive y.rows slot p)]
  congr 1
  funext _
  rw [andThen_fst_slot _ _ (slot_check_symmetric y slot p)]
  congr 1
  funext _
  rw [andThen_fst_slot _ _ (slot_corrDiagCheck y slot p)]
  congr 1
  funext _
  rw [andThen_fst_slot _ _ (slot_check_pos_definite y slot p)]
  rcases (check_pos_definite y slot p).1 with _ | e
  · rfl
  · rfl

/-! ### Success characterizations of the composites -/

theorem check_cov_matrix_fst_none {y : Mat} {slot : Option ℚ} {p : Policy ℚ} :
    (check_cov_matrix y slot p).1 = none ↔
      y.rows = y.cols ∧ 0 < y.rows ∧ symmetricWithin y ∧ posDefiniteWithin y := by
  rw [check_cov_matrix_fst]
  simp only [orElse_eq_none_iff, Option.map_eq_none', check_size_match_fst_none,
    check_positive_fst_none, check_symmetric_fst_none, check_pos_definite_fst_none]

theorem check_cov_matrix_nameless_fst_none {Sigma : Mat} {slot : Option ℚ} {p : Policy ℚ} :
    (check_cov_matrix_nameless Sigma slot p).1 = none ↔
      Sigma.rows = Sigma.cols ∧ 0 < Sigma.rows ∧ symmetricWithin Sigma := by
  rw [check_cov_matrix_nameless_fst]
  simp only [orElse_eq_none_iff, Option.map_eq_none', check_size_match_fst_none,
    check_positive_fst_none, check_symmetric_fst_none]

theorem check_corr_matrix_fst_none {y : Mat} {slot : Option ℚ} {p : Policy ℚ} :
    (check_corr_matrix y slot p).1 = none ↔
      y.rows = y.cols ∧ 0 < y.rows ∧ symmetricWithin y ∧ unitDiagWithin y ∧
        posDefiniteWithin y := by
  rw [check_corr_matrix_fst]
  simp only [orElse_eq_none_iff, Option.map_eq_none', check_size_match_fst_none,
    check_positive_fst_none, check_symmetric_fst_none, corrDiagCheck_fst_none,
    check_pos_definite_fst_none]

/-! ### Characterization of the NaN / finiteness scans -/

theorem nanRowViol_eq_none {y : MatF} {i : ℕ} :
    nanRowViol y i = none ↔ ∀ j, j < y.cols → (y.entry i j).isnan = false := by
  rw [nanRowViol, findFrom_eq_none]
  constructor
  · intro h j hj
    exact h j (Nat.zero_le j) (by omega)
  · intro h j _ hj
    exact h j (by omega)

theorem nanRowViol_eq_some {y : MatF} {i j : ℕ} :
    nanRowViol y i = some j ↔
      j < y.cols ∧ (y.entry i j).isnan = true ∧
        ∀ l, l < j → (y.entry i l).isnan = false := by
  rw [nanRowViol, findFrom_eq_some]
  constructor
  · rintro ⟨-, h2, h3, h4⟩
    exact ⟨by omega, h3, fun l hl => h4 l (Nat.zero_le l) hl⟩
  · rintro ⟨h1, h2, h3⟩
    exact ⟨Nat.zero_le j, by omega, h2, fun l _ hl => h3 l hl⟩

theorem nanFirstViol_eq_none {y : MatF} :
    nanFirstViol y = none ↔
      ∀ i j, i < y.rows → j < y.cols → (y.entry i j).isnan = false := by
  rw [nanFirstViol]
  rcases ho : findFrom (fun i => (nanRowViol y i).isSome) 0 y.rows with _ | i0
  · constructor
    · intro _ i j hi hj
      have h3 := (findFrom_eq_none.mp ho) i (Nat.zero_le i) (by omega)
      exact nanRowViol_eq_none.mp (isSome_false_eq_none h3) j hj
    · intro _; rfl
  · obtain ⟨-, hlt, hsome, -⟩ := findFrom_eq_some.mp ho
    rcases hr : nanRowViol y i0 with _ | j0
    · rw [hr] at hsome; exact absurd hsome (by simp)
    · show ((some i0).bind fun i => Option.map (fun j => (i, j)) (nanRowViol y i)) = none ↔ _
      rw [Option.some_bind, hr]
      constructor
      · intro h; exact absurd h (by simp)
      · intro h
        exfalso
        obtain ⟨h1, h2, -⟩ := nanRowViol_eq_some.mp hr
        rw [h i0 j0 (by omega) h1] at h2
        exact absurd h2 (by simp)

theorem nanFirstViol_eq_some {y : MatF} {i j : ℕ} :
    nanFirstViol y = some (i, j) ↔
      i < y.rows ∧ j < y.cols ∧ (y.entry i j).isnan = true ∧
        (∀ l, l < j → (y.entry i l).isnan = false) ∧
        (∀ a b, a < i → b < y.cols → (y.entry a b).isnan = false) := by
  constructor
  · intro h
    rw [nanFirstViol] at h
    rcases ho : findFrom (fun i => (nanRowViol y i).isSome) 0 y.rows with _ | i0
    · rw [ho] at h; exact absurd h (by simp)
    · rw [ho, Option.some_bind] at h
      obtain ⟨-, hlt, -, hbefore⟩ := findFrom_eq_some.mp ho
      rcases hr : nanRowViol y i0 with _ | j0
      · rw [hr] at h; exact absurd h (by simp)
      · rw [hr] at h
        simp only [Option.map_some', Option.some.injEq, Prod.mk.injEq] at h
        obtain ⟨rfl, rfl⟩ := h
        obtain ⟨h1, h2, h3⟩ := nanRowViol_eq_some.mp hr
        refine ⟨by omega, h1, h2, h3, fun a b ha hb => ?_⟩
        exact nanRowViol_eq_none.mp
          (isSome_false_eq_none (hbefore a (Nat.zero_le a) ha)) b hb
  · rintro ⟨h1, h2, h3, h4, h5⟩
    have hrow : nanRowViol y i = some j := nanRowViol_eq_some.mpr ⟨h2, h3, h4⟩
    have houter : findFrom (fun i => (nanRowViol y i).isSome) 0 y.rows = some i := by
      rw [findFrom_eq_some]
      refine ⟨Nat.zero_le i, by omega, by rw [hrow]; rfl, fun a _ ha => ?_⟩
      have h6 : nanRowViol y a = none :=
        nanRowViol_eq_none.mpr (fun b hb => h5 a b ha hb)
      rw [h6]; rfl
    rw [nanFirstViol, houter, Option.some_bind, hrow]
    rfl

/-! ### Bounds on the element accesses of `check_symmetric` -/

theorem symAccessRow_mem {y : Mat} {m : ℕ} :
    ∀ {rem n pr}, pr ∈ symAccessRow y m n rem →
      (pr.1 = m ∧ n ≤ pr.2 ∧ pr.2 < n + rem) ∨
        (pr.2 = m ∧ n ≤ pr.1 ∧ pr.1 < n + rem) := by
  intro rem
  induction rem with
  | zero =>
    intro n pr h
    exact absurd h (by simp [symAccessRow])
  | succ rem ih =>
    intro n pr h
    rw [symAccessRow] at h
    rcases List.mem_cons.mp h with h | h
    · subst h; exact Or.inl ⟨rfl, Nat.le_refl n, by omega⟩
    rcases List.mem_cons.mp h with h | h
    · subst h; exact Or.inr ⟨rfl, Nat.le_refl n, by omega⟩
    · by_cases hv : symViol y m n = true
      · rw [if_pos hv] at h
        exact absurd h (by simp)
      · rw [if_neg hv] at h
        rcases ih h with ⟨h1, h2, h3⟩ | ⟨h1, h2, h3⟩
        · exact Or.inl ⟨h1, by omega, by omega⟩
        · exact Or.inr ⟨h1, by omega, by omega⟩

theorem symAccessAll_mem {y : Mat} :
    ∀ {rem m pr}, pr ∈ symAccessAll y m rem →
      ∃ l, m ≤ l ∧ l < m + rem ∧ pr ∈ symAccessRow y l (l + 1) (y.rows - (l + 1)) := by
  intro rem
  induction rem with
  | zero =>
    intro m pr h
    exact absurd h (by simp [symAccessAll])
  | succ rem ih =>
    intro m pr h
    rw [symAccessAll] at h
    rcases List.mem_append.mp h with h | h
    · exact ⟨m, Nat.le_refl m, by omega, h⟩
    · rcases hr : symRowViol y m with _ | n0
      · rw [hr] at h
        obtain ⟨l, h1, h2, h3⟩ := ih h
        exact ⟨l, by omega, by omega, h3⟩
      · rw [hr] at h
        exact absurd h (by simp)

theorem symAccesses_mem_lt_rows {y : Mat} {pr : ℕ × ℕ} (h : pr ∈ symAccesses y) :
    pr.1 < y.rows ∧ pr.2 < y.rows := by
  rw [symAccesses] at h
  by_cases hk : y.rows = 1
  · rw [if_pos hk] at h
    exact absurd h (by simp)
  · rw [if_neg hk] at h
    obtain ⟨l, -, h2, h3⟩ := symAccessAll_mem h
    rcases symAccessRow_mem h3 with ⟨h4, h5, h6⟩ | ⟨h4, h5, h6⟩
    · constructor
      · rw [h4]; omega
      · omega
    · constructor
      · omega
      · rw [h4]; omega

/-! ### The factorization diagonal of the identity matrix -/

theorem schurComplement_id :
    schurComplement (fun i j => if i = j then (1 : ℚ) else 0) =
      fun i j => if i = j then (1 : ℚ) else 0 := by
  funext i j
  rw [schurComplement]
  by_cases h : i = j
  · subst h
    simp
  · have h1 : ¬(i + 1 = j + 1) := by omega
    simp [h, h1]

theorem vectorD_id :
    ∀ n, vectorD (fun i j => if i = j then (1 : ℚ) else 0) n = List.replicate n 1 := by
  intro n
  induction n with
  | zero => rfl
  | succ n ih =>
    rw [vectorD, schurComplement_id, ih, if_pos rfl, List.replicate]

theorem posDefiniteWithin_id (n : ℕ) : posDefiniteWithin (idMat n) := by
  unfold posDefiniteWithin
  have he : (idMat n).entry = fun i j => if i = j then (1 : ℚ) else 0 := rfl
  rw [he, vectorD_id]
  intro d hd
  rw [List.eq_of_mem_replicate hd, CONSTRAINT_TOLERANCE]
  norm_num

theorem symmetricWithin_id (n : ℕ) : symmetricWithin (idMat n) := by
  intro m n' h1 _
  have hmn : ¬(m = n') := by omega
  show fabs ((if m = n' then (1 : ℚ) else 0) - if n' = m then 1 else 0) ≤ CONSTRAINT_TOLERANCE
  rw [if_neg hmn, if_neg (fun h => hmn h.symm), CONSTRAINT_TOLERANCE, fabs]
  norm_num

theorem unitDiagWithin_id (n : ℕ) : unitDiagWithin (idMat n) := by
  intro k _
  show fabs ((if k = k then (1 : ℚ) else 0) - 1) ≤ CONSTRAINT_TOLERANCE
  rw [if_pos rfl, CONSTRAINT_TOLERANCE, fabs]
  norm_num

/-! ### Success and failure characterizations of the NaN / finiteness checks -/

theorem check_not_nan_vec_fst_none {y : VecF} {slot : Option FP} {p : Policy FP} :
    (check_not_nan_vec y slot p).1 = none ↔
      ∀ i, i < y.rows → (y.entry i).isnan = false := by
  rw [check_not_nan_vec]
  rcases hf : findFrom (fun i => (y.entry i).isnan) 0 y.rows with _ | i
  · constructor
    · intro _ i hi
      exact findFrom_eq_none.mp hf i (Nat.zero_le i) (by omega)
    · intro _; rfl
  · obtain ⟨-, h2, h3, -⟩ := findFrom_eq_some.mp hf
    constructor
    · intro h; exact absurd h (by simp)
    · intro h
      exfalso
      rw [h i (by omega)] at h3
      exact absurd h3 (by simp)

theorem check_not_nan_vec_fst_some {y : VecF} {slot : Option FP} {p : Policy FP}
    {e : IdxErr} :
    (check_not_nan_vec y slot p).1 = some e →
      e.i < y.rows ∧ (y.entry e.i).isnan = true ∧ e.value = y.entry e.i ∧
        ∀ l, l < e.i → (y.entry l).isnan = false := by
  rw [check_not_nan_vec]
  rcases hf : findFrom (fun i => (y.entry i).isnan) 0 y.rows with _ | i
  · intro h; exact absurd h (by simp)
  · intro h
    simp only [Option.some.injEq] at h
    subst h
    obtain ⟨-, h2, h3, h4⟩ := findFrom_eq_some.mp hf
    refine ⟨?_, h3, rfl, fun l hl => h4 l (Nat.zero_le l) hl⟩
    show i < y.rows
    omega

theorem check_not_nan_mat_fst_none {y : MatF} {slot : Option FP} {p : Policy FP} :
    (check_not_nan_mat y slot p).1 = none ↔
      ∀ i j, i < y.rows → j < y.cols → (y.entry i j).isnan = false := by
  rw [check_not_nan_mat]
  rcases hf : nanFirstViol y with _ | ⟨i, j⟩
  · constructor
    · intro _ i j hi hj
      exact nanFirstViol_eq_none.mp hf i j hi hj
    · intro _; rfl
  · obtain ⟨h1, h2, h3, -, -⟩ := nanFirstViol_eq_some.mp hf
    constructor
    · intro h; exact absurd h (by simp)
    · intro h
      exfalso
      rw [h i j h1 h2] at h3
      exact absurd h3 (by simp)

theorem check_not_nan_mat_fst_some {y : MatF} {slot : Option FP} {p : Policy FP}
    {e : Idx2Err} :
    (check_not_nan_mat y slot p).1 = some e →
      e.i < y.rows ∧ e.j < y.cols ∧ (y.entry e.i e.j).isnan = true ∧
        e.value = y.entry e.i e.j ∧
        (∀ l, l < e.j → (y.entry e.i l).isnan = false) ∧
        (∀ a b, a < e.i → b < y.cols → (y.entry a b).isnan = false) := by
  rw [check_not_nan_mat]
  rcases hf : nanFirstViol y with _ | ⟨i, j⟩
  · intro h; exact absurd h (by simp)
  · intro h
    simp only [Option.some.injEq] at h
    subst h
    obtain ⟨h1, h2, h3, h4, h5⟩ := nanFirstViol_eq_some.mp hf
    exact ⟨h1, h2, h3, rfl, h4, h5⟩

theorem check_finite_fst_none {y : VecF} {slot : Option FP} {p : Policy FP} :
    (check_finite y slot p).1 = none ↔
      ∀ i, i < y.rows → (y.entry i).isfinite = true := by
  rw [check_finite]
  rcases hf : findFrom (fun i => !(y.entry i).isfinite) 0 y.rows with _ | i
  · constructor
    · intro _ i hi
      have h3 := findFrom_eq_none.mp hf i (Nat.zero_le i) (by omega)
      rwa [Bool.not_eq_false'] at h3
    · intro _; rfl
  · obtain ⟨-, h2, h3, -⟩ := findFrom_eq_some.mp hf
    constructor
    · intro h; exact absurd h (by simp)
    · intro h
      exfalso
      rw [Bool.not_eq_true', h i (by omega)] at h3
      exact absurd h3 (by simp)

theorem check_finite_fst_some {y : VecF} {slot : Option FP} {p : Policy FP}
    {e : IdxErr} :
    (check_finite y slot p).1 = some e →
      e.i < y.rows ∧ (y.entry e.i).isfinite = false ∧ e.value = y.entry e.i ∧
        ∀ l, l < e.i → (y.entry l).isfinite = true := by
  rw [check_finite]
  rcases hf : findFrom (fun i => !(y.entry i).isfinite) 0 y.rows with _ | i
  · intro h; exact absurd h (by simp)
  · intro h
    simp only [Option.some.injEq] at h
    subst h
    obtain ⟨-, h2, h3, h4⟩ := findFrom_eq_some.mp hf
    rw [Bool.not_eq_true'] at h3
    refine ⟨?_, h3, rfl, fun l hl => ?_⟩
    · show i < y.rows
      omega
    · have h5 := h4 l (Nat.zero_le l) hl
      rwa [Bool.not_eq_false'] at h5

section

attribute [local semireducible] Rat.add Rat.sub Rat.mul Rat.inv

/-! ### The claims -/

/-- C1: `check_pos_definite`, applied to a square matrix of order 1, succeeds
iff the single entry exceeds `CONSTRAINT_TOLERANCE` (in particular a 1×1
matrix containing `5.0` passes and one containing `0.0` fails); applied to a
square matrix of order greater than 1, it succeeds iff every diagonal entry
of the matrix's LDL-style symmetric indefinite factorization exceeds
`CONSTRAINT_TOLERANCE`. -/
theorem check_pos_definite_spec :
    (∀ (y : Mat) (slot : Option ℚ) (p : Policy ℚ), y.rows = 1 → y.cols = 1 →
      ((check_pos_definite y slot p).1 = none ↔
        CONSTRAINT_TOLERANCE < y.entry 0 0)) ∧
    (check_pos_definite mat1x1_5 none pol0).1 = none ∧
    (check_pos_definite mat1x1_0 none pol0).1 ≠ none ∧
    (∀ (y : Mat) (slot : Option ℚ) (p : Policy ℚ), 1 < y.rows → y.rows = y.cols →
      ((check_pos_definite y slot p).1 = none ↔
        ∀ d ∈ vectorD y.entry y.rows, CONSTRAINT_TOLERANCE < d)) := by
  refine ⟨?_, by decide, by decide, ?_⟩
  · intro y slot p h1 _
    rw [check_pos_definite_fst_none]
    have hv : vectorD y.entry 1 = [y.entry 0 0] := rfl
    constructor
    · intro h
      exact h (y.entry 0 0) (by rw [h1, hv]; exact List.mem_singleton.mpr rfl)
    · intro h d hd
      rw [h1, hv] at hd
      rw [List.mem_singleton.mp hd]
      exact h
  · intro y slot p _ _
    rw [check_pos_definite_fst_none]
    exact Iff.rfl

theorem check_pos_definite_spec_witness :
    ((check_pos_definite mat1x1_5 none pol0).1 = none ↔
      CONSTRAINT_TOLERANCE < mat1x1_5.entry 0 0) ∧
    ((check_pos_definite (idMat 2) none pol0).1 = none ↔
      ∀ d ∈ vectorD (idMat 2).entry (idMat 2).rows, CONSTRAINT_TOLERANCE < d) :=
  ⟨check_pos_definite_spec.1 mat1x1_5 none pol0 rfl rfl,
   check_pos_definite_spec.2.2.2 (idMat 2) none pol0 (by decide) rfl⟩

/-- C7: whenever `check_pos_definite` fails, the diagnostic it hands the
error-reporting collaborator names entry (0,0) and carries the value of the
matrix's (0,0) entry, regardless of which diagonal factor actually violated
the tolerance for matrices of order greater than 1. -/
theorem check_pos_definite_report :
    ∀ (y : Mat) (slot : Option ℚ) (p : Policy ℚ) (e : PdErr),
      (check_pos_definite y slot p).1 = some e →
        e.r = 0 ∧ e.c = 0 ∧ e.value = y.entry 0 0 := by
  intro y slot p e h
  rw [check_pos_definite_fst_some h]
  exact ⟨rfl, rfl, rfl⟩

theorem check_pos_definite_report_witness :
    (⟨0, 0, (0 : ℚ)⟩ : PdErr).r = 0 ∧ (⟨0, 0, (0 : ℚ)⟩ : PdErr).c = 0 ∧
      (⟨0, 0, (0 : ℚ)⟩ : PdErr).value = mat1x1_0.entry 0 0 :=
  check_pos_definite_report mat1x1_0 none pol0 ⟨0, 0, 0⟩ (by decide)

/-- C10: `check_pos_definite` applied to a 0×0 matrix succeeds without
signalling any error: the order-1 branch is not taken and the factorization
of the empty matrix yields no diagonal factor at or below the tolerance; the
output slot is left untouched. -/
theorem check_pos_definite_empty :
    ∀ (entry : ℕ → ℕ → ℚ) (slot : Option ℚ) (p : Policy ℚ),
      (check_pos_definite ⟨0, 0, entry⟩ slot p).1 = none ∧
        (check_pos_definite ⟨0, 0, entry⟩ slot p).2 = slot := by
  intro f slot p
  have h1 : (check_pos_definite ⟨0, 0, f⟩ slot p).1 = none := by
    rw [check_pos_definite_fst_none]
    intro d hd
    have hv : vectorD (Mat.mk 0 0 f).entry (Mat.mk 0 0 f).rows = [] := rfl
    rw [hv] at hd
    exact absurd hd (by simp)
  refine ⟨h1, ?_⟩
  have h2 := slot_check_pos_definite ⟨0, 0, f⟩ slot p
  unfold SlotContract at h2
  rw [h1] at h2
  simpa using h2

/-- C2: for every square matrix, `check_symmetric` succeeds iff
`|M[m,n] − M[n,m]| ≤ CONSTRAINT_TOLERANCE` for every pair `m < n` within
range; in particular it succeeds unconditionally for order at most 1; and on
failure it reports the first violating pair in the scan order with `m`
ascending outer and `n` ascending inner starting at `m+1`, together with
both entry values. -/
theorem check_symmetric_spec :
    (∀ (y : Mat) (slot : Option ℚ) (p : Policy ℚ), y.rows = y.cols →
      ((check_symmetric y slot p).1 = none ↔
        ∀ m n, m < n → n < y.rows →
          fabs (y.entry m n - y.entry n m) ≤ CONSTRAINT_TOLERANCE)) ∧
    (∀ (y : Mat) (slot : Option ℚ) (p : Policy ℚ), y.rows = y.cols → y.rows ≤ 1 →
      (check_symmetric y slot p).1 = none) ∧
    (∀ (y : Mat) (slot : Option ℚ) (p : Policy ℚ) (e : SymErr), y.rows = y.cols →
      (check_symmetric y slot p).1 = some e →
        e.m < e.n ∧ e.n < y.rows ∧
          CONSTRAINT_TOLERANCE < fabs (y.entry e.m e.n - y.entry e.n e.m) ∧
          e.vmn = y.entry e.m e.n ∧ e.vnm = y.entry e.n e.m ∧
          (∀ l, e.m < l → l < e.n →
            fabs (y.entry e.m l - y.entry l e.m) ≤ CONSTRAINT_TOLERANCE) ∧
          (∀ a b, a < e.m → a < b → b < y.rows →
            fabs (y.entry a b - y.entry b a) ≤ CONSTRAINT_TOLERANCE)) := by
  refine ⟨?_, ?_, ?_⟩
  · intro y slot p _
    rw [check_symmetric_fst_none]
    exact Iff.rfl
  · intro y slot p _ hle
    rw [check_symmetric_fst_none]
    intro m n h1 h2
    omega
  · intro y slot p e _ h
    obtain ⟨-, hv, hvm, hvn⟩ := check_symmetric_fst_some h
    obtain ⟨h1, h2, h3, h4, h5⟩ := symFirstViol_eq_some.mp hv
    refine ⟨h1, h2, ?_, hvm, hvn, ?_, ?_⟩
    · exact of_decide_eq_true h3
    · intro l hl1 hl2
      exact symViol_eq_false_iff.mp (h4 l hl1 hl2)
    · intro a b ha hab hb
      exact symViol_eq_false_iff.mp (h5 a b ha hab hb)

theorem check_symmetric_spec_witness :
    ((check_symmetric mat2x2_sym none pol0).1 = none ↔
      ∀ m n, m < n → n < mat2x2_sym.rows →
        fabs (mat2x2_sym.entry m n - mat2x2_sym.entry n m) ≤ CONSTRAINT_TOLERANCE) ∧
    (check_symmetric mat1x1_5 none pol0).1 = none ∧
    ((⟨0, 1, 2, 3⟩ : SymErr).m < (⟨0, 1, 2, 3⟩ : SymErr).n ∧
      (⟨0, 1, 2, 3⟩ : SymErr).n < mat2x2_asym.rows ∧
      CONSTRAINT_TOLERANCE <
        fabs (mat2x2_asym.entry (⟨0, 1, 2, 3⟩ : SymErr).m (⟨0, 1, 2, 3⟩ : SymErr).n -
          mat2x2_asym.entry (⟨0, 1, 2, 3⟩ : SymErr).n (⟨0, 1, 2, 3⟩ : SymErr).m) ∧
      (⟨0, 1, 2, 3⟩ : SymErr).vmn =
        mat2x2_asym.entry (⟨0, 1, 2, 3⟩ : SymErr).m (⟨0, 1, 2, 3⟩ : SymErr).n ∧
      (⟨0, 1, 2, 3⟩ : SymErr).vnm =
        mat2x2_asym.entry (⟨0, 1, 2, 3⟩ : SymErr).n (⟨0, 1, 2, 3⟩ : SymErr).m ∧
      (∀ l, (⟨0, 1, 2, 3⟩ : SymErr).m < l → l < (⟨0, 1, 2, 3⟩ : SymErr).n →
        fabs (mat2x2_asym.entry (⟨0, 1, 2, 3⟩ : SymErr).m l -
          mat2x2_asym.entry l (⟨0, 1, 2, 3⟩ : SymErr).m) ≤ CONSTRAINT_TOLERANCE) ∧
      (∀ a b, a < (⟨0, 1, 2, 3⟩ : SymErr).m → a < b → b < mat2x2_asym.rows →
        fabs (mat2x2_asym.entry a b - mat2x2_asym.entry b a) ≤ CONSTRAINT_TOLERANCE)) :=
  ⟨check_symmetric_spec.1 mat2x2_sym none pol0 rfl,
   check_symmetric_spec.2.1 mat1x1_5 none pol0 rfl (by decide),
   check_symmetric_spec.2.2 mat2x2_asym none pol0 ⟨0, 1, 2, 3⟩ rfl (by decide)⟩

/-- C8 as stated is false at the 2×1 matrix: the scan of `check_symmetric`
runs both loop bounds up to the row count, so it reads position (0,1), whose
column does not exist in a single-column matrix. -/
theorem check_symmetric_access_cex :
    ¬ ∀ pr ∈ symAccesses mat2x1, pr.1 < mat2x1.rows ∧ pr.2 < mat2x1.cols := by
  decide

/-- C8 amended: every element access `check_symmetric` performs lies within
the top-left `rows × rows` block of the matrix; consequently, whenever the
matrix has at least as many columns as rows — in particular for every square
matrix — every access is at an index pair that exists.  (For a matrix with
more rows than columns the scan may read non-existent column indices, so the
claim as stated fails.) -/
theorem check_symmetric_access_amended :
    (∀ (y : Mat) (pr : ℕ × ℕ), pr ∈ symAccesses y →
      pr.1 < y.rows ∧ pr.2 < y.rows) ∧
    (∀ (y : Mat) (pr : ℕ × ℕ), y.rows ≤ y.cols → pr ∈ symAccesses y →
      pr.1 < y.rows ∧ pr.2 < y.cols) := by
  constructor
  · intro y pr h
    exact symAccesses_mem_lt_rows h
  · intro y pr hle h
    obtain ⟨h1, h2⟩ := symAccesses_mem_lt_rows h
    exact ⟨h1, by omega⟩

theorem check_symmetric_access_amended_witness :
    ((0, 1) : ℕ × ℕ).1 < mat2x2_asym.rows ∧ ((0, 1) : ℕ × ℕ).2 < mat2x2_asym.cols :=
  check_symmetric_access_amended.2 mat2x2_asym (0, 1) (by decide) (by decide)

/-- C3: `check_corr_matrix` succeeds iff the matrix is square, has positive
row count, is symmetric within tolerance, has every diagonal entry within
`CONSTRAINT_TOLERANCE` of 1.0, and is positive definite; the five sub-checks
run in exactly this order with short-circuit, so the returned failure is the
first failing sub-check's failure (seen in the ordered `orElse` chain of the
tagged sub-check outcomes); and the identity matrix of any order ≥ 1
passes. -/
theorem check_corr_matrix_spec :
    (∀ (y : Mat) (slot : Option ℚ) (p : Policy ℚ),
      ((check_corr_matrix y slot p).1 = none ↔
        y.rows = y.cols ∧ 0 < y.rows ∧ symmetricWithin y ∧ unitDiagWithin y ∧
          posDefiniteWithin y)) ∧
    (∀ (y : Mat) (slot : Option ℚ) (p : Policy ℚ),
      (check_corr_matrix y slot p).1 =
        ((check_size_match y.rows y.cols slot p).1.map CorrErr.size).orElse (fun _ =>
          ((check_positive y.rows slot p).1.map CorrErr.pos).orElse (fun _ =>
            ((check_symmetric y slot p).1.map CorrErr.sym).orElse (fun _ =>
              ((corrDiagCheck y slot p).1.map CorrErr.diag).orElse (fun _ =>
                (check_pos_definite y slot p).1.map CorrErr.pd))))) ∧
    (∀ (n : ℕ) (slot : Option ℚ) (p : Policy ℚ), 1 ≤ n →
      (check_corr_matrix (idMat n) slot p).1 = none) := by
  refine ⟨fun y slot p => check_corr_matrix_fst_none,
    fun y slot p => check_corr_matrix_fst y slot p, ?_⟩
  intro n slot p hn
  rw [check_corr_matrix_fst_none]
  exact ⟨rfl, hn, symmetricWithin_id n, unitDiagWithin_id n, posDefiniteWithin_id n⟩

theorem check_corr_matrix_spec_witness :
    (check_corr_matrix (idMat 3) none pol0).1 = none :=
  check_corr_matrix_spec.2.2 3 none pol0 (by decide)

/-- C4: the named-subject overload of `check_cov_matrix` succeeds iff the
matrix is square, has positive row count, is symmetric within tolerance, and
is positive definite; the sub-checks run in that order with short-circuit
(the returned failure is the first failing sub-check's failure, tagged by
that sub-check); and a 0×0 matrix fails at the positive-order check. -/
theorem check_cov_matrix_spec :
    (∀ (y : Mat) (slot : Option ℚ) (p : Policy ℚ),
      ((check_cov_matrix y slot p).1 = none ↔
        y.rows = y.cols ∧ 0 < y.rows ∧ symmetricWithin y ∧ posDefiniteWithin y)) ∧
    (∀ (y : Mat) (slot : Option ℚ) (p : Policy ℚ),
      (check_cov_matrix y slot p).1 =
        ((check_size_match y.rows y.cols slot p).1.map CovErr.size).orElse (fun _ =>
          ((check_positive y.rows slot p).1.map CovErr.pos).orElse (fun _ =>
            ((check_symmetric y slot p).1.map CovErr.sym).orElse (fun _ =>
              (check_pos_definite y slot p).1.map CovErr.pd)))) ∧
    (∀ (entry : ℕ → ℕ → ℚ) (slot : Option ℚ) (p : Policy ℚ),
      (check_cov_matrix ⟨0, 0, entry⟩ slot p).1 = some (CovErr.pos ⟨0⟩)) := by
  refine ⟨fun y slot p => check_cov_matrix_fst_none,
    fun y slot p => check_cov_matrix_fst y slot p, ?_⟩
  intro f slot p
  rw [check_cov_matrix_fst]
  have h1 : (check_size_match (Mat.mk 0 0 f).rows (Mat.mk 0 0 f).cols slot p).1 = none :=
    check_size_match_fst_none.mpr rfl
  have h2 : (check_positive (Mat.mk 0 0 f).rows slot p).1 = some ⟨0⟩ := by
    rw [check_positive, if_neg (Nat.lt_irrefl 0)]
  rw [h1, h2]
  rfl

/-- C5: the two overloads of `check_cov_matrix` differ only in that the
overload without an explicit subject name omits the positive-definite step:
it succeeds iff the matrix is square, has positive row count, and is
symmetric within tolerance; the named overload succeeds iff the nameless one
succeeds and the matrix is additionally positive definite; and on any matrix
the nameless overload rejects, the named overload returns the same failure
(they agree on the square, positive-order, and symmetry checks). -/
theorem check_cov_matrix_overloads :
    (∀ (Sigma : Mat) (slot : Option ℚ) (p : Policy ℚ),
      ((check_cov_matrix_nameless Sigma slot p).1 = none ↔
        Sigma.rows = Sigma.cols ∧ 0 < Sigma.rows ∧ symmetricWithin Sigma)) ∧
    (∀ (y : Mat) (slot : Option ℚ) (p : Policy ℚ),
      ((check_cov_matrix y slot p).1 = none ↔
        (check_cov_matrix_nameless y slot p).1 = none ∧ posDefiniteWithin y)) ∧
    (∀ (y : Mat) (slot : Option ℚ) (p : Policy ℚ) (e : CovErr),
      (check_cov_matrix_nameless y slot p).1 = some e →
        (check_cov_matrix y slot p).1 = some e) := by
  refine ⟨fun Sigma slot p => check_cov_matrix_nameless_fst_none, ?_, ?_⟩
  · intro y slot p
    rw [check_cov_matrix_fst_none, check_cov_matrix_nameless_fst_none]
    tauto
  · intro y slot p e h
    rw [check_cov_matrix_nameless_fst] at h
    rw [check_cov_matrix_fst]
    rcases hs : (check_size_match y.rows y.cols slot p).1 with _ | e1
    · rw [hs] at h
      simp only [Option.map_none', Option.none_orElse] at h ⊢
      rcases hp : (check_positive y.rows slot p).1 with _ | e2
      · rw [hp] at h
        simp only [Option.map_none', Option.none_orElse] at h ⊢
        rcases hy : (check_symmetric y slot p).1 with _ | e3
        · rw [hy] at h
          exact absurd h (by simp)
        · rw [hy] at h
          simp only [Option.map_some', Option.some_orElse] at h ⊢
          exact h
      · rw [hp] at h
        simp only [Option.map_some', Option.some_orElse] at h ⊢
        exact h
    · rw [hs] at h
      simp only [Option.map_some', Option.some_orElse] at h ⊢
      exact h

theorem check_cov_matrix_overloads_witness :
    (check_cov_matrix mat2x1 none pol0).1 = some (CovErr.size ⟨2, 1⟩) :=
  check_cov_matrix_overloads.2.2 mat2x1 none pol0 (CovErr.size ⟨2, 1⟩) (by decide)

/-- C6: `check_not_nan` (vector and matrix overloads) succeeds iff no entry
is NaN, and `check_finite` (vector overload) succeeds iff every entry is
finite; on failure each reports the first violating entry in scan order
(linear index order for the vector overloads, row-major for the matrix
overload) along with that entry's exact index or indices and its value. -/
theorem check_not_nan_finite_spec :
    (∀ (y : VecF) (slot : Option FP) (p : Policy FP),
      ((check_not_nan_vec y slot p).1 = none ↔
        ∀ i, i < y.rows → (y.entry i).isnan = false)) ∧
    (∀ (y : VecF) (slot : Option FP) (p : Policy FP) (e : IdxErr),
      (check_not_nan_vec y slot p).1 = some e →
        e.i < y.rows ∧ (y.entry e.i).isnan = true ∧ e.value = y.entry e.i ∧
          ∀ l, l < e.i → (y.entry l).isnan = false) ∧
    (∀ (y : MatF) (slot : Option FP) (p : Policy FP),
      ((check_not_nan_mat y slot p).1 = none ↔
        ∀ i j, i < y.rows → j < y.cols → (y.entry i j).isnan = false)) ∧
    (∀ (y : MatF) (slot : Option FP) (p : Policy FP) (e : Idx2Err),
      (check_not_nan_mat y slot p).1 = some e →
        e.i < y.rows ∧ e.j < y.cols ∧ (y.entry e.i e.j).isnan = true ∧
          e.value = y.entry e.i e.j ∧
          (∀ l, l < e.j → (y.entry e.i l).isnan = false) ∧
          (∀ a b, a < e.i → b < y.cols → (y.entry a b).isnan = false)) ∧
    (∀ (y : VecF) (slot : Option FP) (p : Policy FP),
      ((check_finite y slot p).1 = none ↔
        ∀ i, i < y.rows → (y.entry i).isfinite = true)) ∧
    (∀ (y : VecF) (slot : Option FP) (p : Policy FP) (e : IdxErr),
      (check_finite y slot p).1 = some e →
        e.i < y.rows ∧ (y.entry e.i).isfinite = false ∧ e.value = y.entry e.i ∧
          ∀ l, l < e.i → (y.entry l).isfinite = true) :=
  ⟨fun _ _ _ => check_not_nan_vec_fst_none,
   fun _ _ _ _ => check_not_nan_vec_fst_some,
   fun _ _ _ => check_not_nan_mat_fst_none,
   fun _ _ _ _ => check_not_nan_mat_fst_some,
   fun _ _ _ => check_finite_fst_none,
   fun _ _ _ _ => check_finite_fst_some⟩

theorem check_not_nan_finite_spec_witness :
    ((⟨1, FP.nan⟩ : IdxErr).i < vec_nan.rows ∧
      (vec_nan.entry (⟨1, FP.nan⟩ : IdxErr).i).isnan = true ∧
      (⟨1, FP.nan⟩ : IdxErr).value = vec_nan.entry (⟨1, FP.nan⟩ : IdxErr).i ∧
      ∀ l, l < (⟨1, FP.nan⟩ : IdxErr).i → (vec_nan.entry l).isnan = false) ∧
    ((⟨1, 0, FP.nan⟩ : Idx2Err).i < matF_nan.rows ∧
      (⟨1, 0, FP.nan⟩ : Idx2Err).j < matF_nan.cols ∧
      (matF_nan.entry (⟨1, 0, FP.nan⟩ : Idx2Err).i (⟨1, 0, FP.nan⟩ : Idx2Err).j).isnan = true ∧
      (⟨1, 0, FP.nan⟩ : Idx2Err).value =
        matF_nan.entry (⟨1, 0, FP.nan⟩ : Idx2Err).i (⟨1, 0, FP.nan⟩ : Idx2Err).j ∧
      (∀ l, l < (⟨1, 0, FP.nan⟩ : Idx2Err).j →
        (matF_nan.entry (⟨1, 0, FP.nan⟩ : Idx2Err).i l).isnan = false) ∧
      (∀ a b, a < (⟨1, 0, FP.nan⟩ : Idx2Err).i → b < matF_nan.cols →
        (matF_nan.entry a b).isnan = false)) ∧
    ((⟨2, FP.posInf⟩ : IdxErr).i < vec_inf.rows ∧
      (vec_inf.entry (⟨2, FP.posInf⟩ : IdxErr).i).isfinite = false ∧
      (⟨2, FP.posInf⟩ : IdxErr).value = vec_inf.entry (⟨2, FP.posInf⟩ : IdxErr).i ∧
      ∀ l, l < (⟨2, FP.posInf⟩ : IdxErr).i → (vec_inf.entry l).isfinite = true) :=
  ⟨check_not_nan_finite_spec.2.1 vec_nan none polF ⟨1, FP.nan⟩ (by decide),
   check_not_nan_finite_spec.2.2.2.1 matF_nan none polF ⟨1, 0, FP.nan⟩ (by decide),
   check_not_nan_finite_spec.2.2.2.2.2 vec_inf none polF ⟨2, FP.posInf⟩ (by decide)⟩

/-- C9: for every predicate in this layer, the caller-supplied output slot is
written (with the policy's sentinel) exactly when the predicate fails and the
slot is non-null; on success the slot is left unchanged, and a null slot is
never written through on either path. -/
theorem slot_contract_spec :
    (∀ (i j : ℕ) (slot : Option ℚ) (p : Policy ℚ),
      SlotContract slot p.errValue (check_size_match i j slot p)) ∧
    (∀ (y : Mat) (slot : Option ℚ) (p : Policy ℚ),
      SlotContract slot p.errValue (check_symmetric y slot p)) ∧
    (∀ (y : Mat) (slot : Option ℚ) (p : Policy ℚ),
      SlotContract slot p.errValue (check_pos_definite y slot p)) ∧
    (∀ (y : Mat) (slot : Option ℚ) (p : Policy ℚ),
      SlotContract slot p.errValue (check_cov_matrix y slot p)) ∧
    (∀ (Sigma : Mat) (slot : Option ℚ) (p : Policy ℚ),
      SlotContract slot p.errValue (check_cov_matrix_nameless Sigma slot p)) ∧
    (∀ (y : Mat) (slot : Option ℚ) (p : Policy ℚ),
      SlotContract slot p.errValue (check_corr_matrix y slot p)) ∧
    (∀ (y : VecF) (slot : Option FP) (p : Policy FP),
      SlotContract slot p.errValue (check_not_nan_vec y slot p)) ∧
    (∀ (y : MatF) (slot : Option FP) (p : Policy FP),
      SlotContract slot p.errValue (check_not_nan_mat y slot p)) ∧
    (∀ (y : VecF) (slot : Option FP) (p : Policy FP),
      SlotContract slot p.errValue (check_finite y slot p)) :=
  ⟨slot_check_size_match, slot_check_symmetric, slot_check_pos_definite,
   slot_check_cov_matrix, slot_check_cov_matrix_nameless, slot_check_corr_matrix,
   slot_check_not_nan_vec, slot_check_not_nan_mat, slot_check_finite⟩

end

end Stan
